import Mathlib

/-!
A shallow embedding of the response-parsing and path-resolution layer of the
js-occlient helpers module (`helpers.js`): per-segment percent decoding, the
path resolver `_extractPath`, the file-info decoder `_parseFileInfo`, the
batch decoder `_parseBody`, the OCS status normalizer `_checkOCSstatus`, and
the supporting utilities `_normalizePath` and `_encodeUri`.

JavaScript strings are modelled as Lean strings (lists of characters);
JavaScript `null`/`undefined` results are modelled with `Option`; runtime
exceptions (`URIError` from `decodeURIComponent`, `TypeError` from property
access on `undefined`) are modelled with `Except Unit`.
-/

deriving instance DecidableEq for Except

namespace OCClient

/-- Splits a list of characters at every occurrence of `sep`, keeping empty
chunks, exactly like the JavaScript `String.prototype.split` with a
single-character separator (`''.split(sep)` gives `['']`). -/
def splitChar (sep : Char) : List Char → List (List Char)
  | [] => [[]]
  | c :: rest =>
    match splitChar sep rest with
    | [] => [[]]
    | t :: ts => if c = sep then [] :: t :: ts else (c :: t) :: ts

/-- Joins chunks back with the separator `sep` between them (the JavaScript
`Array.prototype.join` with a single-character separator). -/
def joinSep (sep : Char) : List (List Char) → List Char
  | [] => []
  | [s] => s
  | s :: t :: rest => s ++ sep :: joinSep sep (t :: rest)

/-- Value of a hexadecimal digit character, `none` for non-hex characters. -/
def hexDigit? (c : Char) : Option Nat :=
  if '0' ≤ c ∧ c ≤ '9' then some (c.toNat - 48)
  else if 'a' ≤ c ∧ c ≤ 'f' then some (c.toNat - 87)
  else if 'A' ≤ c ∧ c ≤ 'F' then some (c.toNat - 55)
  else none

/-- Reads the two hex digits of a `%XX` escape (the `%` has already been
consumed) and returns the byte together with the remaining characters. -/
def escByte? : List Char → Option (Nat × List Char)
  | h :: l :: rest =>
    match hexDigit? h, hexDigit? l with
    | some hv, some lv => some (hv * 16 + lv, rest)
    | _, _ => none
  | _ => none

/-- Reads one `%XX` continuation byte (value in `0x80–0xBF`) and returns its
low six bits together with the remaining characters. -/
def contByte? : List Char → Option (Nat × List Char)
  | '%' :: rest =>
    match escByte? rest with
    | some (b, rest') => if 0x80 ≤ b ∧ b ≤ 0xBF then some (b % 64, rest') else none
    | none => none
  | _ => none

/-- Fuel-indexed worker for `decodeURIComponent?`.  Characters other than `%`
stand for themselves; a `%XX` escape contributes a byte, and bytes with the
high bit set must form a valid (shortest-form, non-surrogate, `≤ 0x10FFFF`)
UTF-8 sequence of further escapes, exactly as in the ECMAScript `Decode`
algorithm.  `none` models the `URIError` thrown on malformed input.  Each
step consumes at least one character, so fuel equal to the length of the
input never runs out. -/
def pdec : Nat → List Char → Option (List Char)
  | _, [] => some []
  | 0, _ :: _ => none
  | fuel + 1, c :: rest =>
    if c = '%' then
    match escByte? rest with
    | none => none
    | some (b, rest₁) =>
      if b < 0x80 then
        match pdec fuel rest₁ with
        | some out => some (Char.ofNat b :: out)
        | none => none
      else if 0xC2 ≤ b ∧ b ≤ 0xDF then
        match contByte? rest₁ with
        | none => none
        | some (c1, rest₂) =>
          match pdec fuel rest₂ with
          | some out => some (Char.ofNat ((b % 32) * 64 + c1) :: out)
          | none => none
      else if 0xE0 ≤ b ∧ b ≤ 0xEF then
        match contByte? rest₁ with
        | none => none
        | some (c1, rest₂) =>
          match contByte? rest₂ with
          | none => none
          | some (c2, rest₃) =>
            let cp := (b % 16) * 4096 + c1 * 64 + c2
            if cp < 0x800 ∨ (0xD800 ≤ cp ∧ cp ≤ 0xDFFF) then none
            else
              match pdec fuel rest₃ with
              | some out => some (Char.ofNat cp :: out)
              | none => none
      else if 0xF0 ≤ b ∧ b ≤ 0xF4 then
        match contByte? rest₁ with
        | none => none
        | some (c1, rest₂) =>
          match contByte? rest₂ with
          | none => none
          | some (c2, rest₃) =>
            match contByte? rest₃ with
            | none => none
            | some (c3, rest₄) =>
              let cp := (b % 8) * 262144 + c1 * 4096 + c2 * 64 + c3
              if cp < 0x10000 ∨ 0x10FFFF < cp then none
              else
                match pdec fuel rest₄ with
                | some out => some (Char.ofNat cp :: out)
                | none => none
      else none
    else
      match pdec fuel rest with
      | some out => some (c :: out)
      | none => none

/-- Model of the JavaScript `decodeURIComponent` on a list of characters:
`some` is the decoded value, `none` models a thrown `URIError`. -/
def decodeURIComponent? (s : List Char) : Option (List Char) :=
  pdec s.length s

/-- Model of `_normalizePath(path)`: the empty path becomes `/`; a path not starting
with `/` gets `/` prepended; every other path is returned unchanged. -/
def normalizePath (path : String) : String :=
  match path.data with
  | [] => "/"
  | c :: rest => if c = '/' then path else String.mk ('/' :: c :: rest)

/-- The characters `encodeURIComponent` leaves unescaped (the ECMAScript
`uriUnescaped` set): ASCII letters, digits, and `- _ . ! ~ * ' ( )`. -/
def uriUnescaped (c : Char) : Bool :=
  c.isAlphanum || ['-', '_', '.', '!', '~', '*', Char.ofNat 39, '(', ')'].contains c

/-- UTF-8 bytes of a character (code points are never surrogates in Lean). -/
def utf8Bytes (c : Char) : List Nat :=
  let n := c.toNat
  if n < 0x80 then [n]
  else if n < 0x800 then [0xC0 + n / 64, 0x80 + n % 64]
  else if n < 0x10000 then [0xE0 + n / 4096, 0x80 + (n / 64) % 64, 0x80 + n % 64]
  else [0xF0 + n / 262144, 0x80 + (n / 4096) % 64, 0x80 + (n / 64) % 64, 0x80 + n % 64]

/-- Uppercase hexadecimal digit for a value below 16. -/
def hexChar (n : Nat) : Char :=
  if n < 10 then Char.ofNat (48 + n) else Char.ofNat (55 + n)

/-- A `%XX` escape (uppercase hex) for one byte. -/
def escapeByte (b : Nat) : List Char := ['%', hexChar (b / 16), hexChar (b % 16)]

/-- Model of the JavaScript `encodeURIComponent`: unescaped characters stand
for themselves, every other character is replaced by the `%XX` escapes of its
UTF-8 bytes. -/
def encodeURIComponentL (l : List Char) : List Char :=
  (l.map (fun c => if uriUnescaped c then [c] else ((utf8Bytes c).map escapeByte).flatten)).flatten

/-- Replaces every (leftmost, non-overlapping) occurrence of `%2F` by `/`,
which is what `path.split('%2F').join('/')` does in `_encodeUri`. -/
def replace2F : List Char → List Char
  | [] => []
  | [c] => [c]
  | [c, d] => [c, d]
  | c :: d :: e :: rest =>
    if c = '%' ∧ d = '2' ∧ e = 'F' then '/' :: replace2F rest
    else c :: replace2F (d :: e :: rest)

/-- Model of `_encodeUri(path)`: normalize, percent-encode the whole path, then
restore the literal `/` separators. -/
def encodeUri (path : String) : String :=
  String.mk (replace2F (encodeURIComponentL (normalizePath path).data))

/-- The `/`-separated sections of an href with empty sections dropped
(`path.split('/')` followed by filtering out `''`). -/
def hrefSections (path : String) : List (List Char) :=
  (splitChar '/' path.data).filter (fun s => s ≠ [])

/-- The scan `pathSections.findIndex(section => decodeURIComponent(section)
=== 'remote.php')`: `Except.error` models a `URIError` escaping from the
predicate, `.ok none` models `findIndex` returning `-1`. -/
def findRemote : List (List Char) → Except Unit (Option Nat)
  | [] => .ok none
  | s :: rest =>
    match decodeURIComponent? s with
    | none => .error ()
    | some d =>
      if d = "remote.php".data then .ok (some 0)
      else
        match findRemote rest with
        | .error e => .error e
        | .ok none => .ok none
        | .ok (some i) => .ok (some (i + 1))

/-- Percent-decodes every section of a list in order, `none` as soon as one
decoding throws (the body of the `while` loop in `_extractPath`). -/
def decodeSegs : List (List Char) → Option (List (List Char))
  | [] => some []
  | s :: rest =>
    match decodeURIComponent? s with
    | none => none
    | some d =>
      match decodeSegs rest with
      | some ds => some (d :: ds)
      | none => none

/-- Model of `_extractPath(path, leftTrimComponents)`: split the href on `/`, drop
empty sections, locate the first section decoding to `remote.php` (absent:
`null`, modelled `.ok none`), require the next section to decode to `webdav`
or `dav` (an out-of-range index yields JavaScript `undefined`, which
`decodeURIComponent` stringifies to `"undefined"`), then join the sections
from offset `remoteIndex + leftTrimComponents + 2`, each percent-decoded and
prefixed by `/`.  `Except.error` models an escaping `URIError`. -/
def extractPath (path : String) (leftTrimComponents : Nat) : Except Unit (Option String) :=
  match findRemote (hrefSections path) with
  | .error e => .error e
  | .ok none => .ok none
  | .ok (some remoteIndex) =>
    match decodeURIComponent? ((hrefSections path).getD (remoteIndex + 1) "undefined".data) with
    | none => .error ()
    | some follower =>
      if follower = "webdav".data ∨ follower = "dav".data then
        match decodeSegs ((hrefSections path).drop (remoteIndex + leftTrimComponents + 2)) with
        | none => .error ()
        | some segs => .ok (some (String.mk (segs.foldl (fun acc s => acc ++ '/' :: s) [])))
      else .ok none

/-- One child of a parsed `{DAV:}resourcetype` property: an XML element as the
external XML parser delivers it, carrying its namespace URI and its (possibly
prefixed) node name. -/
structure XmlNode where
  namespaceURI : String
  nodeName : String
deriving DecidableEq

/-- A property value in the parsed property map: either a plain string or a
list of child elements (the shape `_parseFileInfo` inspects for
`\x7bDAV:\x7dresourcetype`). -/
inductive PropValue where
  | text : String → PropValue
  | nodes : List XmlNode → PropValue
deriving DecidableEq

/-- One property-status block of a multistatus entry: a status line and the
property map. -/
structure PropStat where
  status : String
  properties : List (String × PropValue)
deriving DecidableEq

/-- One WebDAV multistatus entry as handed to `_parseFileInfo`: an href and
the ordered list of property-status blocks. -/
structure DavResponse where
  href : String
  propStat : List PropStat
deriving DecidableEq

/-- Modelled from the spec: the `FileInfo` record (`fileInfo.js` is not under
`src/`; per the spec data model its constructor stores the resolved name, the
`file`/`dir` type, and the property map of the inspected block). -/
structure FileInfo where
  name : String
  fileType : String
  properties : List (String × PropValue)
deriving DecidableEq

/-- The `fileType` computation of `_parseFileInfo` (the `resType` block):
the type is `dir` when the first child of the `\x7bDAV:\x7dresourcetype`
property has namespace `DAV:` and its `nodeName.split(':')[1]` equals
`collection`.  A truthy string value for the property indexes its first
character, which has no `namespaceURI`, hence gives `file`; an empty child
list is truthy but `resType[0]` is `undefined`, so reading `.namespaceURI`
raises a `TypeError`, modelled by `.error ()`. -/
def resourceFileType (props : List (String × PropValue)) : Except Unit String :=
  match List.lookup "\x7bDAV:\x7dresourcetype" props with
  | some (.nodes children) =>
    match children.head? with
    | none => .error ()
    | some xmlvalue =>
      if xmlvalue.namespaceURI = "DAV:"
          ∧ (splitChar ':' xmlvalue.nodeName.data).get? 1 = some "collection".data
      then .ok "dir"
      else .ok "file"
  | some (.text _) => .ok "file"
  | none => .ok "file"

/-- Model of `_parseFileInfo(response, leftTrimComponents)`.  The href is resolved
with `_extractPath` (`null` propagates as `.ok none`); an empty `propStat`
list or a first block whose status is not exactly `HTTP/1.1 200 OK` yields
`null`; otherwise the entry becomes a `FileInfo` carrying the resolved name,
the type computed by `resourceFileType`, and the first block's property
map. -/
def parseFileInfo (response : DavResponse) (leftTrimComponents : Nat) :
    Except Unit (Option FileInfo) :=
  match extractPath response.href leftTrimComponents with
  | .error e => .error e
  | .ok none => .ok none
  | .ok (some name) =>
    match response.propStat with
    | [] => .ok none
    | firstBlock :: _ =>
      if firstBlock.status ≠ "HTTP/1.1 200 OK" then .ok none
      else
        match resourceFileType firstBlock.properties with
        | .error e => .error e
        | .ok fileType => .ok (some ⟨name, fileType, firstBlock.properties⟩)

/-- The loop of `_parseBody`: decode each entry in order, keep the non-null
results, and let an exception abort the whole batch. -/
def parseBodyList (leftTrimComponents : Nat) : List DavResponse → Except Unit (List FileInfo)
  | [] => .ok []
  | response :: rest =>
    match parseFileInfo response leftTrimComponents with
    | .error e => .error e
    | .ok none => parseBodyList leftTrimComponents rest
    | .ok (some fileInfo) =>
      match parseBodyList leftTrimComponents rest with
      | .error e => .error e
      | .ok fileInfos => .ok (fileInfo :: fileInfos)

/-- The argument of `_parseBody`: either a single entry or an array of
entries (`if (!Array.isArray(responses)) responses = [responses]`). -/
inductive BodyInput where
  | single : DavResponse → BodyInput
  | many : List DavResponse → BodyInput

/-- Normalization of a single entry to a one-element array. -/
def BodyInput.toResponses : BodyInput → List DavResponse
  | .single r => [r]
  | .many rs => rs

/-- Model of `_parseBody(responses, leftTrimComponents)`. -/
def parseBody (input : BodyInput) (leftTrimComponents : Nat) : Except Unit (List FileInfo) :=
  parseBodyList leftTrimComponents input.toResponses

/-- An OCS `meta.message` value: the XML/JSON parse gives either a string or
an object, here represented by its list of keys (the code only ever counts
`Object.keys`; `Object.keys` of a string has one key per character). -/
inductive MsgVal where
  | str : String → MsgVal
  | obj : List String → MsgVal
deriving DecidableEq

/-- Value of `Object.keys(value).length` for a message value. -/
def objKeysLen : MsgVal → Nat
  | .str s => s.length
  | .obj keys => keys.length

/-- The `meta` substructure of an OCS envelope; `message` may be absent. -/
structure Meta where
  statuscode : String
  message : Option MsgVal
deriving DecidableEq

/-- The `ocs` substructure of an OCS envelope; `meta` may be absent. -/
structure Ocs where
  meta : Option Meta
deriving DecidableEq

/-- A parsed OCS response envelope; `ocs` may be absent. -/
structure Envelope where
  ocs : Option Ocs
deriving DecidableEq

/-- Whitespace skipped by `parseInt`. -/
def isJsSpace (c : Char) : Bool :=
  c = ' ' ∨ c = Char.ofNat 9 ∨ c = Char.ofNat 10 ∨ c = Char.ofNat 11
    ∨ c = Char.ofNat 12 ∨ c = Char.ofNat 13

/-- The longest prefix of digit values under the given digit reader. -/
def leadDigits (digit? : Char → Option Nat) : List Char → List Nat
  | [] => []
  | c :: rest =>
    match digit? c with
    | some d => d :: leadDigits digit? rest
    | none => []

/-- Decimal digit value. -/
def decDigit? (c : Char) : Option Nat :=
  if '0' ≤ c ∧ c ≤ '9' then some (c.toNat - 48) else none

/-- Accumulates digit values in the given base. -/
def digitsVal (base : Nat) (ds : List Nat) : Nat :=
  ds.foldl (fun a d => a * base + d) 0

/-- Model of the JavaScript `parseInt` (radix unspecified): skip whitespace,
read an optional sign, detect a `0x`/`0X` prefix for base 16, then read the
longest digit prefix; `none` models `NaN` (no digits at all). -/
def parseIntJS (s : String) : Option Int :=
  let cs := s.data.dropWhile isJsSpace
  let signed : Int × List Char :=
    match cs with
    | '-' :: r => (-1, r)
    | '+' :: r => (1, r)
    | _ => (1, cs)
  let body := signed.2
  let digits : List Nat :=
    match body with
    | '0' :: x :: r => if x = 'x' ∨ x = 'X' then leadDigits hexDigit? r else leadDigits decDigit? body
    | _ => leadDigits decDigit? body
  let base : Nat :=
    match body with
    | '0' :: x :: _ => if x = 'x' ∨ x = 'X' then 16 else 10
    | _ => 10
  match digits with
  | [] => none
  | _ => some (signed.1 * Int.ofNat (digitsVal base digits))

/-- The value `_checkOCSstatus` returns when an error is detected: the
`meta.message` value, or the whole parsed envelope when the message is
empty. -/
inductive CheckResult where
  | fromMessage : MsgVal → CheckResult
  | whole : Envelope → CheckResult
deriving DecidableEq

/-- Model of `_checkOCSstatus(json, acceptedCodes)`: missing `acceptedCodes` defaults
to `[100]`; without an `ocs.meta` substructure the result stays `undefined`
(`.ok none`); otherwise an error exists when `parseInt(meta.statuscode)` is
not found in the accepted list (a `NaN` is never found).  The error value is
`meta.message`, replaced by the whole envelope when `Object.keys` of the
message is empty; `Object.keys(undefined)` raises a `TypeError`, modelled by
`.error ()`. -/
def checkOCSstatus (json : Envelope) (acceptedCodes : Option (List Int)) :
    Except Unit (Option CheckResult) :=
  let accepted := acceptedCodes.getD [100]
  match json.ocs.bind Ocs.meta with
  | none => .ok none
  | some meta =>
    let found : Bool :=
      match parseIntJS meta.statuscode with
      | some n => accepted.contains n
      | none => false
    if found then .ok none
    else
      match meta.message with
      | none => .error ()
      | some msg =>
        if objKeysLen msg = 0 then .ok (some (.whole json))
        else .ok (some (.fromMessage msg))

/-- Spec-side reading of "the segment decoding to `remote.php`": `ri` is the
index of the first section that percent-decodes to `remote.php`, every
earlier section decoding successfully to something else (so the `findIndex`
scan reaches and selects index `ri`). -/
def firstRemoteAt (sections : List (List Char)) (ri : Nat) : Prop :=
  ri < sections.length
  ∧ decodeURIComponent? (sections.getD ri []) = some "remote.php".data
  ∧ ∀ j, j < ri → decodeURIComponent? (sections.getD j []) ≠ none
      ∧ decodeURIComponent? (sections.getD j []) ≠ some "remote.php".data

instance decFirstRemoteAt (sections : List (List Char)) (ri : Nat) :
    Decidable (firstRemoteAt sections ri) := by
  unfold firstRemoteAt
  exact inferInstance

/-- Modelled from the spec: the XML local name of a (possibly prefixed) node
name — the part after the first `:` when a prefix is present, the whole name
otherwise.  Used only to compare the spec's "tag localname" reading with the
code's `nodeName.split(':')[1]`. -/
def localNameSpec (nodeName : String) : String :=
  match splitChar ':' nodeName.data with
  | [] => nodeName
  | [_] => nodeName
  | _ :: l :: _ => String.mk l

/-- The decoded value of one entry (`null` when decoding drops it); only used
to describe the output of `_parseBody`. -/
def decodedOf (leftTrimComponents : Nat) (e : DavResponse) : Option FileInfo :=
  match parseFileInfo e leftTrimComponents with
  | .ok r => r
  | .error _ => none

/-- RFC 3986 unreserved characters (the claim's "URI-unreserved"). -/
def unreserved3986 (c : Char) : Bool :=
  c.isAlphanum || c = '-' || c = '.' || c = '_' || c = '~'

theorem firstRemoteAt_zero_iff (s : List Char) (t : List (List Char)) :
    firstRemoteAt (s :: t) 0 ↔ decodeURIComponent? s = some "remote.php".data := by
  unfold firstRemoteAt
  simp

theorem firstRemoteAt_succ_iff (s : List Char) (t : List (List Char)) (j : Nat) :
    firstRemoteAt (s :: t) (j + 1) ↔
      (decodeURIComponent? s ≠ none ∧ decodeURIComponent? s ≠ some "remote.php".data)
        ∧ firstRemoteAt t j := by
  unfold firstRemoteAt
  constructor
  · rintro ⟨hlen, hget, hall⟩
    refine ⟨hall 0 (Nat.succ_pos j), ⟨Nat.lt_of_succ_lt_succ hlen, hget, ?_⟩⟩
    intro j' hj'
    exact hall (j' + 1) (Nat.succ_lt_succ hj')
  · rintro ⟨h0, hlen, hget, hall⟩
    refine ⟨Nat.succ_lt_succ hlen, hget, ?_⟩
    intro j' hj'
    match j' with
    | 0 => exact h0
    | j'' + 1 => exact hall j'' (Nat.lt_of_succ_lt_succ hj')

theorem findRemote_some_iff (l : List (List Char)) (ri : Nat) :
    findRemote l = .ok (some ri) ↔ firstRemoteAt l ri := by
  induction l generalizing ri with
  | nil =>
    unfold findRemote firstRemoteAt
    simp
  | cons s t ih =>
    cases hd : decodeURIComponent? s with
    | none =>
      simp only [findRemote, hd]
      constructor
      · intro h
        exact absurd h (by simp)
      · intro h
        match ri, h with
        | 0, h => exact absurd ((firstRemoteAt_zero_iff s t).mp h) (by simp [hd])
        | ri' + 1, h =>
          exact absurd ((firstRemoteAt_succ_iff s t ri').mp h).1.1 (by simp [hd])
    | some d =>
      by_cases hdr : d = "remote.php".data
      · subst hdr
        simp only [findRemote, hd, if_pos rfl]
        constructor
        · intro h
          have h0 : ri = 0 := by
            cases h
            rfl
          subst h0
          exact (firstRemoteAt_zero_iff s t).mpr hd
        · intro h
          match ri, h with
          | 0, _ => rfl
          | ri' + 1, h =>
            have := ((firstRemoteAt_succ_iff s t ri').mp h).1.2
            exact absurd hd this
      · simp only [findRemote, hd, if_neg hdr]
        cases hft : findRemote t with
        | error e =>
          constructor
          · intro h
            exact absurd h (by simp)
          · intro h
            match ri, h with
            | 0, h =>
              have : decodeURIComponent? s = some "remote.php".data :=
                (firstRemoteAt_zero_iff s t).mp h
              rw [hd] at this
              exact absurd (Option.some.inj this) hdr
            | ri' + 1, h =>
              have ht := ((firstRemoteAt_succ_iff s t ri').mp h).2
              rw [(ih ri').mpr ht] at hft
              exact absurd hft (by simp)
        | ok o =>
          cases o with
          | none =>
            constructor
            · intro h
              exact absurd h (by simp)
            · intro h
              match ri, h with
              | 0, h =>
                have : decodeURIComponent? s = some "remote.php".data :=
                  (firstRemoteAt_zero_iff s t).mp h
                rw [hd] at this
                exact absurd (Option.some.inj this) hdr
              | ri' + 1, h =>
                have ht := ((firstRemoteAt_succ_iff s t ri').mp h).2
                rw [(ih ri').mpr ht] at hft
                exact absurd hft (by simp)
          | some i =>
            constructor
            · intro h
              have hri : ri = i + 1 := by
                cases h
                rfl
              subst hri
              refine (firstRemoteAt_succ_iff s t i).mpr ⟨⟨by simp [hd], by simp [hd, hdr]⟩, ?_⟩
              exact (ih i).mp hft
            · intro h
              match ri, h with
              | 0, h =>
                have : decodeURIComponent? s = some "remote.php".data :=
                  (firstRemoteAt_zero_iff s t).mp h
                rw [hd] at this
                exact absurd (Option.some.inj this) hdr
              | ri' + 1, h =>
                have ht := ((firstRemoteAt_succ_iff s t ri').mp h).2
                rw [(ih ri').mpr ht] at hft
                cases hft
                rfl

theorem findRemote_none_iff (l : List (List Char)) :
    findRemote l = .ok none ↔
      ∀ s ∈ l, decodeURIComponent? s ≠ none
        ∧ decodeURIComponent? s ≠ some "remote.php".data := by
  induction l with
  | nil =>
    unfold findRemote
    simp
  | cons s t ih =>
    cases hd : decodeURIComponent? s with
    | none =>
      simp only [findRemote, hd]
      constructor
      · intro h
        exact absurd h (by simp)
      · intro h
        exact absurd hd (h s (List.mem_cons_self s t)).1
    | some d =>
      by_cases hdr : d = "remote.php".data
      · subst hdr
        simp only [findRemote, hd, if_pos rfl]
        constructor
        · intro h
          exact absurd h (by simp)
        · intro h
          exact absurd hd (h s (List.mem_cons_self s t)).2
      · simp only [findRemote, hd, if_neg hdr]
        cases hft : findRemote t with
        | error e =>
          constructor
          · intro h
            exact absurd h (by simp)
          · intro h
            have : findRemote t = .ok none := by
              refine ih.mpr ?_
              intro s' hs'
              exact h s' (List.mem_cons_of_mem s hs')
            rw [this] at hft
            exact absurd hft (by simp)
        | ok o =>
          cases o with
          | none =>
            constructor
            · intro _
              intro s' hs'
              rcases List.mem_cons.mp hs' with h1 | h2
              · subst h1
                exact ⟨by simp [hd], by simp [hd, hdr]⟩
              · exact (ih.mp hft) s' h2
            · intro _
              rfl
          | some i =>
            constructor
            · intro h
              exact absurd h (by simp)
            · intro h
              have : findRemote t = .ok none := by
                refine ih.mpr ?_
                intro s' hs'
                exact h s' (List.mem_cons_of_mem s hs')
              rw [this] at hft
              exact absurd hft (by simp)

theorem foldl_slash (segs : List (List Char)) (acc : List Char) :
    segs.foldl (fun a s => a ++ '/' :: s) acc
      = acc ++ (segs.map (fun s => '/' :: s)).flatten := by
  induction segs generalizing acc with
  | nil => simp
  | cons s t ih => simp [List.foldl, ih, List.append_assoc]

theorem extractPath_step_error (path : String) (k : Nat) (e : Unit)
    (hfr : findRemote (hrefSections path) = .error e) :
    extractPath path k = .error e := by
  simp only [extractPath, hfr]

theorem extractPath_step_noRemote (path : String) (k : Nat)
    (hfr : findRemote (hrefSections path) = .ok none) :
    extractPath path k = .ok none := by
  simp only [extractPath, hfr]

theorem extractPath_step_folErr (path : String) (k ri : Nat)
    (hfr : findRemote (hrefSections path) = .ok (some ri))
    (hfol : decodeURIComponent? ((hrefSections path).getD (ri + 1) "undefined".data) = none) :
    extractPath path k = .error () := by
  simp only [extractPath, hfr, hfol]

theorem extractPath_step_badFol (path : String) (k ri : Nat) (follower : List Char)
    (hfr : findRemote (hrefSections path) = .ok (some ri))
    (hfol : decodeURIComponent? ((hrefSections path).getD (ri + 1) "undefined".data)
        = some follower)
    (hwd : ¬(follower = "webdav".data ∨ follower = "dav".data)) :
    extractPath path k = .ok none := by
  simp only [extractPath, hfr, hfol, if_neg hwd]

theorem extractPath_step_segErr (path : String) (k ri : Nat) (follower : List Char)
    (hfr : findRemote (hrefSections path) = .ok (some ri))
    (hfol : decodeURIComponent? ((hrefSections path).getD (ri + 1) "undefined".data)
        = some follower)
    (hwd : follower = "webdav".data ∨ follower = "dav".data)
    (hds : decodeSegs ((hrefSections path).drop (ri + k + 2)) = none) :
    extractPath path k = .error () := by
  simp only [extractPath, hfr, hfol, if_pos hwd, hds]

theorem extractPath_step_ok (path : String) (k ri : Nat) (follower : List Char)
    (segs : List (List Char))
    (hfr : findRemote (hrefSections path) = .ok (some ri))
    (hfol : decodeURIComponent? ((hrefSections path).getD (ri + 1) "undefined".data)
        = some follower)
    (hwd : follower = "webdav".data ∨ follower = "dav".data)
    (hds : decodeSegs ((hrefSections path).drop (ri + k + 2)) = some segs) :
    extractPath path k = .ok (some (String.mk (segs.foldl (fun acc s => acc ++ '/' :: s) []))) := by
  simp only [extractPath, hfr, hfol, if_pos hwd, hds]

/-- C1: if the first href section decoding to `remote.php` sits at index
`ri` and the following section decodes to `webdav` or `dav`, then
`_extractPath` returns the concatenation, each segment prefixed by `/`, of
the individually percent-decoded sections from offset
`ri + leftTrimComponents + 2` (the empty string when no sections remain). -/
theorem extractPath_resolves (path : String) (k ri : Nat) (follower : List Char)
    (segs : List (List Char))
    (h1 : firstRemoteAt (hrefSections path) ri)
    (h2 : decodeURIComponent? ((hrefSections path).getD (ri + 1) "undefined".data)
        = some follower)
    (h3 : follower = "webdav".data ∨ follower = "dav".data)
    (h4 : decodeSegs ((hrefSections path).drop (ri + k + 2)) = some segs) :
    extractPath path k = .ok (some (String.mk ((segs.map (fun s => '/' :: s)).flatten))) := by
  rw [extractPath_step_ok path k ri follower segs
    ((findRemote_some_iff (hrefSections path) ri).mpr h1) h2 h3 h4, foldl_slash segs []]
  rfl

/-- Witness for C1: the claim's own example href (with `%20` decoding inside
a segment) and the empty-remainder edge case. -/
theorem extractPath_resolves_witness :
    extractPath "/remote.php/webdav/a/b%20c.txt" 0 = .ok (some "/a/b c.txt")
    ∧ extractPath "/x/remote.php/webdav" 0 = .ok (some "") := by
  constructor
  · exact (extractPath_resolves "/remote.php/webdav/a/b%20c.txt" 0 0 "webdav".data
      ["a".data, "b c.txt".data] (by decide) (by decide) (by decide) (by decide)).trans
      (by decide)
  · exact (extractPath_resolves "/x/remote.php/webdav" 0 1 "webdav".data []
      (by decide) (by decide) (by decide) (by decide)).trans (by decide)

/-- C10: when the first section decoding to `remote.php` is the final
section, the out-of-range access to the following section reads as
JavaScript `undefined`, whose stringification fails the `webdav`/`dav`
membership test, so `_extractPath` returns `null` instead of faulting. -/
theorem extractPath_oob_safe (path : String) (k ri : Nat)
    (h1 : firstRemoteAt (hrefSections path) ri)
    (hlast : (hrefSections path).length = ri + 1) :
    extractPath path k = .ok none := by
  have hg : (hrefSections path).getD (ri + 1) "undefined".data = "undefined".data :=
    List.getD_eq_default _ _ (le_of_eq hlast)
  refine extractPath_step_badFol path k ri "undefined".data
    ((findRemote_some_iff (hrefSections path) ri).mpr h1) ?_ (by decide)
  rw [hg]
  decide

/-- Witness for C10: a concrete href ending right at `remote.php`. -/
theorem extractPath_oob_safe_witness :
    extractPath "/foo/remote.php" 0 = .ok none :=
  extractPath_oob_safe "/foo/remote.php" 0 1 (by decide) (by decide)

/-- Counterexample to C2 as stated: the href `%zz` has no segment decoding
to `remote.php`, yet `_extractPath` does not return `null` — it raises a
`URIError` while the scan percent-decodes the malformed section. -/
theorem extractPath_notfound_cex :
    (∀ s ∈ hrefSections "%zz", decodeURIComponent? s ≠ some "remote.php".data)
    ∧ extractPath "%zz" 0 ≠ .ok none := by
  constructor
  · decide
  · decide

/-- C2 amended: `_extractPath` returns `null` exactly when either every
section percent-decodes successfully and none decodes to `remote.php`, or
the first section decoding to `remote.php` is followed (an out-of-range
position reading as `undefined`) by a section that percent-decodes to a
value other than `webdav`/`dav`; hrefs whose relevant sections fail
percent-decoding raise a `URIError` instead. -/
theorem extractPath_none_iff (path : String) (k : Nat) :
    extractPath path k = .ok none ↔
      ((∀ s ∈ hrefSections path, decodeURIComponent? s ≠ none
          ∧ decodeURIComponent? s ≠ some "remote.php".data)
        ∨ ∃ ri follower, firstRemoteAt (hrefSections path) ri
            ∧ decodeURIComponent? ((hrefSections path).getD (ri + 1) "undefined".data)
                = some follower
            ∧ ¬(follower = "webdav".data ∨ follower = "dav".data)) := by
  cases hfr : findRemote (hrefSections path) with
  | error e =>
    rw [extractPath_step_error path k e hfr]
    constructor
    · intro h
      exact absurd h (by simp)
    · rintro (h1 | ⟨ri, follower, hfra, _, _⟩)
      · rw [(findRemote_none_iff (hrefSections path)).mpr h1] at hfr
        exact absurd hfr (by simp)
      · rw [(findRemote_some_iff (hrefSections path) ri).mpr hfra] at hfr
        exact absurd hfr (by simp)
  | ok o =>
    cases o with
    | none =>
      rw [extractPath_step_noRemote path k hfr]
      constructor
      · intro _
        exact Or.inl ((findRemote_none_iff (hrefSections path)).mp hfr)
      · intro _
        rfl
    | some ri =>
      have hfra := (findRemote_some_iff (hrefSections path) ri).mp hfr
      cases hfol : decodeURIComponent? ((hrefSections path).getD (ri + 1) "undefined".data) with
      | none =>
        rw [extractPath_step_folErr path k ri hfr hfol]
        constructor
        · intro h
          exact absurd h (by simp)
        · rintro (h1 | ⟨ri', follower, hfra', hfol', _⟩)
          · rw [(findRemote_none_iff (hrefSections path)).mpr h1] at hfr
            exact absurd hfr (by simp)
          · rw [(findRemote_some_iff (hrefSections path) ri').mpr hfra'] at hfr
            have hri : ri' = ri := by
              cases hfr
              rfl
            subst hri
            rw [hfol] at hfol'
            exact absurd hfol' (by simp)
      | some follower =>
        by_cases hwd : follower = "webdav".data ∨ follower = "dav".data
        · constructor
          · intro h
            cases hds : decodeSegs ((hrefSections path).drop (ri + k + 2)) with
            | none =>
              rw [extractPath_step_segErr path k ri follower hfr hfol hwd hds] at h
              exact absurd h (by simp)
            | some segs =>
              rw [extractPath_step_ok path k ri follower segs hfr hfol hwd hds] at h
              exact absurd h (by simp)
          · rintro (h1 | ⟨ri', follower', hfra', hfol', hwd'⟩)
            · rw [(findRemote_none_iff (hrefSections path)).mpr h1] at hfr
              exact absurd hfr (by simp)
            · rw [(findRemote_some_iff (hrefSections path) ri').mpr hfra'] at hfr
              have hri : ri' = ri := by
                cases hfr
                rfl
              subst hri
              rw [hfol] at hfol'
              have hf : follower' = follower := (Option.some.inj hfol').symm
              subst hf
              exact absurd hwd hwd'
        · rw [extractPath_step_badFol path k ri follower hfr hfol hwd]
          constructor
          · intro _
            exact Or.inr ⟨ri, follower, hfra, hfol, hwd⟩
          · intro _
            rfl

theorem parseFileInfo_step_err (e : DavResponse) (k : Nat) (u : Unit)
    (hep : extractPath e.href k = .error u) : parseFileInfo e k = .error u := by
  simp only [parseFileInfo, hep]

theorem parseFileInfo_step_noPath (e : DavResponse) (k : Nat)
    (hep : extractPath e.href k = .ok none) : parseFileInfo e k = .ok none := by
  simp only [parseFileInfo, hep]

theorem parseFileInfo_step_noBlock (e : DavResponse) (k : Nat) (name : String)
    (hep : extractPath e.href k = .ok (some name)) (hps : e.propStat = []) :
    parseFileInfo e k = .ok none := by
  simp only [parseFileInfo, hep, hps]

theorem parseFileInfo_step_badStatus (e : DavResponse) (k : Nat) (name : String)
    (b : PropStat) (rest : List PropStat)
    (hep : extractPath e.href k = .ok (some name)) (hps : e.propStat = b :: rest)
    (hst : b.status ≠ "HTTP/1.1 200 OK") :
    parseFileInfo e k = .ok none := by
  simp only [parseFileInfo, hep, hps, if_pos hst]

theorem parseFileInfo_step_ftErr (e : DavResponse) (k : Nat) (name : String)
    (b : PropStat) (rest : List PropStat) (u : Unit)
    (hep : extractPath e.href k = .ok (some name)) (hps : e.propStat = b :: rest)
    (hst : ¬b.status ≠ "HTTP/1.1 200 OK")
    (hft : resourceFileType b.properties = .error u) :
    parseFileInfo e k = .error u := by
  simp only [parseFileInfo, hep, hps, if_neg hst, hft]

theorem parseFileInfo_step_ok (e : DavResponse) (k : Nat) (name : String)
    (b : PropStat) (rest : List PropStat) (ft : String)
    (hep : extractPath e.href k = .ok (some name)) (hps : e.propStat = b :: rest)
    (hst : ¬b.status ≠ "HTTP/1.1 200 OK")
    (hft : resourceFileType b.properties = .ok ft) :
    parseFileInfo e k = .ok (some ⟨name, ft, b.properties⟩) := by
  simp only [parseFileInfo, hep, hps, if_neg hst, hft]

/-- C3: for an entry whose href resolves, `_parseFileInfo` returns `null`
when the `propStat` list is empty or its first block's status is not exactly
`HTTP/1.1 200 OK`, and its result depends only on the href and the first
property-status block. -/
theorem parseFileInfo_firstPropStat (e : DavResponse) (k : Nat) (p : String)
    (h : extractPath e.href k = .ok (some p)) :
    ((e.propStat = [] ∨ ∃ b rest, e.propStat = b :: rest ∧ b.status ≠ "HTTP/1.1 200 OK")
        → parseFileInfo e k = .ok none)
    ∧ ∀ b r r', parseFileInfo ⟨e.href, b :: r⟩ k = parseFileInfo ⟨e.href, b :: r'⟩ k := by
  constructor
  · rintro (hps | ⟨b, rest, hps, hst⟩)
    · exact parseFileInfo_step_noBlock e k p h hps
    · exact parseFileInfo_step_badStatus e k p b rest h hps hst
  · intro b r r'
    simp only [parseFileInfo, h]

/-- Witness for C3: concrete entries with a resolving href and, respectively,
no property-status block and a `404` first block. -/
theorem parseFileInfo_firstPropStat_witness :
    parseFileInfo ⟨"/remote.php/webdav/a", []⟩ 0 = .ok none
    ∧ parseFileInfo ⟨"/remote.php/webdav/a", [⟨"HTTP/1.1 404 Not Found", []⟩]⟩ 0
        = .ok none := by
  constructor
  · exact (parseFileInfo_firstPropStat ⟨"/remote.php/webdav/a", []⟩ 0 "/a"
      (by decide)).1 (Or.inl rfl)
  · exact (parseFileInfo_firstPropStat ⟨"/remote.php/webdav/a",
      [⟨"HTTP/1.1 404 Not Found", []⟩]⟩ 0 "/a" (by decide)).1
      (Or.inr ⟨⟨"HTTP/1.1 404 Not Found", []⟩, [], rfl, by decide⟩)

theorem resourceFileType_dir_iff (props : List (String × PropValue)) (ft : String)
    (h : resourceFileType props = .ok ft) :
    (ft = "dir" ↔ ∃ children node,
        List.lookup "\x7bDAV:\x7dresourcetype" props = some (.nodes children)
        ∧ children.head? = some node
        ∧ node.namespaceURI = "DAV:"
        ∧ (splitChar ':' node.nodeName.data).get? 1 = some "collection".data)
    ∧ (ft = "dir" ∨ ft = "file") := by
  cases hlk : List.lookup "\x7bDAV:\x7dresourcetype" props with
  | none =>
    simp only [resourceFileType, hlk] at h
    have hft : ft = "file" := (Except.ok.inj h).symm
    subst hft
    refine ⟨⟨fun hd => absurd hd (by decide), ?_⟩, Or.inr rfl⟩
    rintro ⟨children, node, hlk', _, _, _⟩
    exact absurd hlk' (by simp)
  | some v =>
    cases v with
    | text s =>
      simp only [resourceFileType, hlk] at h
      have hft : ft = "file" := (Except.ok.inj h).symm
      subst hft
      refine ⟨⟨fun hd => absurd hd (by decide), ?_⟩, Or.inr rfl⟩
      rintro ⟨children, node, hlk', _, _, _⟩
      exact absurd (Option.some.inj hlk') (by simp)
    | nodes children =>
      cases hhd : children.head? with
      | none =>
        simp only [resourceFileType, hlk, hhd] at h
        exact Except.noConfusion h
      | some node =>
        by_cases hdir : node.namespaceURI = "DAV:"
            ∧ (splitChar ':' node.nodeName.data).get? 1 = some "collection".data
        · simp only [resourceFileType, hlk, hhd, if_pos hdir] at h
          have hft : ft = "dir" := (Except.ok.inj h).symm
          subst hft
          exact ⟨iff_of_true rfl ⟨children, node, rfl, hhd, hdir.1, hdir.2⟩, Or.inl rfl⟩
        · simp only [resourceFileType, hlk, hhd, if_neg hdir] at h
          have hft : ft = "file" := (Except.ok.inj h).symm
          subst hft
          refine ⟨⟨fun hd => absurd hd (by decide), ?_⟩, Or.inr rfl⟩
          rintro ⟨children', node', hlk', hhd', hns', hcol'⟩
          have hc : children = children' := PropValue.nodes.inj (Option.some.inj hlk')
          subst hc
          rw [hhd] at hhd'
          have hn : node = node' := Option.some.inj hhd'
          subst hn
          exact absurd ⟨hns', hcol'⟩ hdir

/-- Counterexample to C4 as stated: an entry whose resource-type child has
namespace `DAV:` and tag localname `collection` but an unprefixed node name;
`nodeName.split(':')[1]` is `undefined`, so `_parseFileInfo` yields type
`file` where the claim's localname reading demands `dir`. -/
theorem parseFileInfo_unprefixed_collection_cex :
    parseFileInfo
        ⟨"/remote.php/webdav/x", [⟨"HTTP/1.1 200 OK",
          [("\x7bDAV:\x7dresourcetype", .nodes [⟨"DAV:", "collection"⟩])]⟩]⟩ 0
      = .ok (some ⟨"/x", "file",
          [("\x7bDAV:\x7dresourcetype", .nodes [⟨"DAV:", "collection"⟩])]⟩)
    ∧ (XmlNode.mk "DAV:" "collection").namespaceURI = "DAV:"
    ∧ localNameSpec (XmlNode.mk "DAV:" "collection").nodeName = "collection" := by
  refine ⟨by decide, rfl, by decide⟩

/-- C4 amended: for every entry decoding to a `FileInfo`, the type is `dir`
exactly when the `\x7bDAV:\x7dresourcetype` property of the first
property-status block is a child list whose first node has namespace `DAV:`
and whose node name's second `:`-separated component is `collection` (so an
unprefixed `collection` yields `file`); in every other decoded case the type
is `file`. -/
theorem parseFileInfo_dir_iff (e : DavResponse) (k : Nat) (fi : FileInfo)
    (h : parseFileInfo e k = .ok (some fi)) :
    (fi.fileType = "dir" ↔ ∃ b rest children node, e.propStat = b :: rest
        ∧ List.lookup "\x7bDAV:\x7dresourcetype" b.properties = some (.nodes children)
        ∧ children.head? = some node
        ∧ node.namespaceURI = "DAV:"
        ∧ (splitChar ':' node.nodeName.data).get? 1 = some "collection".data)
    ∧ (fi.fileType = "dir" ∨ fi.fileType = "file") := by
  cases hep : extractPath e.href k with
  | error u =>
    rw [parseFileInfo_step_err e k u hep] at h
    exact absurd h (by simp)
  | ok o =>
    cases o with
    | none =>
      rw [parseFileInfo_step_noPath e k hep] at h
      exact absurd h (by simp)
    | some name =>
      cases hps : e.propStat with
      | nil =>
        rw [parseFileInfo_step_noBlock e k name hep hps] at h
        exact absurd h (by simp)
      | cons b rest =>
        by_cases hst : b.status ≠ "HTTP/1.1 200 OK"
        · rw [parseFileInfo_step_badStatus e k name b rest hep hps hst] at h
          exact absurd h (by simp)
        · cases hft : resourceFileType b.properties with
          | error u =>
            rw [parseFileInfo_step_ftErr e k name b rest u hep hps hst hft] at h
            exact absurd h (by simp)
          | ok ft =>
            rw [parseFileInfo_step_ok e k name b rest ft hep hps hst hft] at h
            have hfi : fi = ⟨name, ft, b.properties⟩ :=
              (Option.some.inj (Except.ok.inj h)).symm
            subst hfi
            obtain ⟨hiff, hor⟩ := resourceFileType_dir_iff b.properties ft hft
            refine ⟨⟨?_, ?_⟩, hor⟩
            · intro hd
              obtain ⟨children, node, hlk, hhd, hns, hcol⟩ := hiff.mp hd
              exact ⟨b, rest, children, node, rfl, hlk, hhd, hns, hcol⟩
            · rintro ⟨b', rest', children, node, hps', hlk, hhd, hns, hcol⟩
              have hb : b = b' := (List.cons.inj hps').1
              subst hb
              exact hiff.mpr ⟨children, node, hlk, hhd, hns, hcol⟩

/-- Witness for C4: the claim's own scenario entry
(`/remote.php/webdav/docs/subdir/` with a prefixed `d:collection` child)
decodes to name `/docs/subdir` and type `dir`. -/
theorem parseFileInfo_dir_iff_witness :
    parseFileInfo
        ⟨"/remote.php/webdav/docs/subdir/", [⟨"HTTP/1.1 200 OK",
          [("\x7bDAV:\x7dresourcetype", .nodes [⟨"DAV:", "d:collection"⟩])]⟩]⟩ 0
      = .ok (some ⟨"/docs/subdir", "dir",
          [("\x7bDAV:\x7dresourcetype", .nodes [⟨"DAV:", "d:collection"⟩])]⟩)
    ∧ (FileInfo.mk "/docs/subdir" "dir"
        [("\x7bDAV:\x7dresourcetype", .nodes [⟨"DAV:", "d:collection"⟩])]).fileType
      = "dir" := by
  refine ⟨by decide, ?_⟩
  exact (parseFileInfo_dir_iff
    ⟨"/remote.php/webdav/docs/subdir/", [⟨"HTTP/1.1 200 OK",
      [("\x7bDAV:\x7dresourcetype", .nodes [⟨"DAV:", "d:collection"⟩])]⟩]⟩ 0
    ⟨"/docs/subdir", "dir", [("\x7bDAV:\x7dresourcetype", .nodes [⟨"DAV:", "d:collection"⟩])]⟩
    (by decide)).1.mpr
    ⟨⟨"HTTP/1.1 200 OK", [("\x7bDAV:\x7dresourcetype", .nodes [⟨"DAV:", "d:collection"⟩])]⟩,
      [], [⟨"DAV:", "d:collection"⟩], ⟨"DAV:", "d:collection"⟩,
      rfl, by decide, rfl, rfl, by decide⟩

theorem parseBodyList_ok (k : Nat) (es : List DavResponse)
    (h : ∀ e ∈ es, parseFileInfo e k ≠ .error ()) :
    parseBodyList k es = .ok (es.filterMap (decodedOf k)) := by
  induction es with
  | nil => rfl
  | cons e t ih =>
    have he := h e (List.mem_cons_self e t)
    have ht : ∀ x ∈ t, parseFileInfo x k ≠ .error () :=
      fun x hx => h x (List.mem_cons_of_mem e hx)
    cases hpe : parseFileInfo e k with
    | error u =>
      cases u
      exact absurd hpe he
    | ok r =>
      cases r with
      | none =>
        have hd : decodedOf k e = none := by simp [decodedOf, hpe]
        rw [List.filterMap_cons_none hd]
        simp only [parseBodyList, hpe]
        exact ih ht
      | some fi =>
        have hd : decodedOf k e = some fi := by simp [decodedOf, hpe]
        rw [List.filterMap_cons_some hd]
        simp only [parseBodyList, hpe, ih ht]

theorem parseBodyList_len (k : Nat) (es : List DavResponse)
    (h : ∀ e ∈ es, parseFileInfo e k ≠ .error ()) :
    (es.filterMap (decodedOf k)).length
      = es.length - es.countP (fun e => decide (parseFileInfo e k = .ok none)) := by
  induction es with
  | nil => rfl
  | cons e t ih =>
    have he := h e (List.mem_cons_self e t)
    have ht : ∀ x ∈ t, parseFileInfo x k ≠ .error () :=
      fun x hx => h x (List.mem_cons_of_mem e hx)
    have hcle := List.countP_le_length
      (p := fun e => decide (parseFileInfo e k = .ok none)) (l := t)
    cases hpe : parseFileInfo e k with
    | error u =>
      cases u
      exact absurd hpe he
    | ok r =>
      cases r with
      | none =>
        have hd : decodedOf k e = none := by simp [decodedOf, hpe]
        have hpt : decide (parseFileInfo e k = Except.ok none) = true := by simp [hpe]
        rw [List.filterMap_cons_none hd, List.countP_cons, ih ht, hpt, if_pos rfl]
        simp only [List.length_cons]
        omega
      | some fi =>
        have hd : decodedOf k e = some fi := by simp [decodedOf, hpe]
        have hpf : decide (parseFileInfo e k = Except.ok none) = false := by simp [hpe]
        rw [List.filterMap_cons_some hd, List.countP_cons, hpf, if_neg (by decide)]
        simp only [List.length_cons, ih ht]
        omega

/-- C5: with a single entry first normalized to a one-element sequence,
`_parseBody` keeps exactly the entries that decode to a `FileInfo`, in input
order: on `N` entries of which `M` decode to `null` it returns the `N - M`
decoded records with no reordering, gap markers, or deduplication. -/
theorem parseBody_spec (k : Nat) (es : List DavResponse)
    (h : ∀ e ∈ es, parseFileInfo e k ≠ .error ()) :
    parseBody (.many es) k = .ok (es.filterMap (decodedOf k))
    ∧ (es.filterMap (decodedOf k)).length
        = es.length - es.countP (fun e => decide (parseFileInfo e k = .ok none))
    ∧ ∀ e, parseBody (.single e) k = parseBody (.many [e]) k :=
  ⟨parseBodyList_ok k es h, parseBodyList_len k es h, fun _ => rfl⟩

/-- Witness for C5: three entries of which the middle one decodes to `null`
(non-200 first property status); the result keeps the other two in order,
and a single entry behaves as its one-element sequence. -/
theorem parseBody_spec_witness :
    parseBody (.many [⟨"/remote.php/webdav/a.txt", [⟨"HTTP/1.1 200 OK", []⟩]⟩,
        ⟨"/remote.php/webdav/b.txt", [⟨"HTTP/1.1 404 Not Found", []⟩]⟩,
        ⟨"/remote.php/webdav/c%20d.txt", [⟨"HTTP/1.1 200 OK", []⟩]⟩]) 0
      = .ok [⟨"/a.txt", "file", []⟩, ⟨"/c d.txt", "file", []⟩]
    ∧ parseBody (.single ⟨"/remote.php/webdav/b.txt", [⟨"HTTP/1.1 404 Not Found", []⟩]⟩) 0
      = .ok [] := by
  constructor
  · exact (parseBody_spec 0 [⟨"/remote.php/webdav/a.txt", [⟨"HTTP/1.1 200 OK", []⟩]⟩,
      ⟨"/remote.php/webdav/b.txt", [⟨"HTTP/1.1 404 Not Found", []⟩]⟩,
      ⟨"/remote.php/webdav/c%20d.txt", [⟨"HTTP/1.1 200 OK", []⟩]⟩] (by decide)).1.trans
      (by decide)
  · exact ((parseBody_spec 0 [⟨"/remote.php/webdav/b.txt", [⟨"HTTP/1.1 404 Not Found", []⟩]⟩]
      (by decide)).2.2 ⟨"/remote.php/webdav/b.txt", [⟨"HTTP/1.1 404 Not Found", []⟩]⟩).trans
      (by decide)

/-- C6: `_checkOCSstatus` reports no error (`null`) on envelopes without an
`ocs.meta` substructure, and on envelopes whose `meta.statuscode` parses to
an integer contained in the accepted-codes list (`[100]` when the caller
passes none). -/
theorem checkOCSstatus_accepted (json : Envelope) (acc : Option (List Int)) :
    (json.ocs.bind Ocs.meta = none → checkOCSstatus json acc = .ok none)
    ∧ ∀ m n, json.ocs.bind Ocs.meta = some m → parseIntJS m.statuscode = some n
        → (acc.getD [100]).contains n = true → checkOCSstatus json acc = .ok none := by
  constructor
  · intro hm
    simp only [checkOCSstatus, hm]
  · intro m n hm hp hmem
    simp only [checkOCSstatus, hm, hp, hmem]
    simp

/-- Witness for C6: the claim's envelope `{ocs:{meta:{statuscode:100,
message:''}}}` with default accepted codes, plus an envelope lacking
`ocs.meta`. -/
theorem checkOCSstatus_accepted_witness :
    checkOCSstatus ⟨some ⟨some ⟨"100", some (.str "")⟩⟩⟩ none = .ok none
    ∧ checkOCSstatus ⟨none⟩ none = .ok none := by
  constructor
  · exact (checkOCSstatus_accepted ⟨some ⟨some ⟨"100", some (.str "")⟩⟩⟩ none).2
      ⟨"100", some (.str "")⟩ 100 rfl (by decide) (by decide)
  · exact (checkOCSstatus_accepted ⟨none⟩ none).1 rfl

/-- C7: when `meta.statuscode` parses to an integer outside the accepted
codes, `_checkOCSstatus` returns `meta.message` if that value is non-empty
and the entire parsed envelope if the message is the empty string or an
empty structure. -/
theorem checkOCSstatus_rejected (json : Envelope) (acc : Option (List Int)) (m : Meta)
    (n : Int) (msg : MsgVal)
    (hm : json.ocs.bind Ocs.meta = some m)
    (hp : parseIntJS m.statuscode = some n)
    (hn : (acc.getD [100]).contains n = false)
    (hmsg : m.message = some msg) :
    (¬(msg = .str "" ∨ msg = .obj []) → checkOCSstatus json acc = .ok (some (.fromMessage msg)))
    ∧ ((msg = .str "" ∨ msg = .obj []) → checkOCSstatus json acc = .ok (some (.whole json))) := by
  have hstr : ∀ s : String, s.length = 0 ↔ s = "" := by
    intro s
    cases s with
    | mk data =>
      cases data with
      | nil => exact ⟨fun _ => rfl, fun _ => rfl⟩
      | cons c cs =>
        constructor
        · intro hl
          exact absurd hl (by simp [String.length])
        · intro hl
          exact absurd (congrArg String.data hl) (by simp)
  have hempty : objKeysLen msg = 0 ↔ (msg = .str "" ∨ msg = .obj []) := by
    cases msg with
    | str s =>
      simp only [objKeysLen]
      constructor
      · intro hl
        exact Or.inl (by rw [(hstr s).mp hl])
      · rintro (hs | hs)
        · rw [MsgVal.str.inj hs]
          rfl
        · exact absurd hs (by simp)
    | obj keys =>
      simp only [objKeysLen]
      constructor
      · intro hl
        exact Or.inr (by rw [List.length_eq_zero.mp hl])
      · rintro (hs | hs)
        · exact absurd hs (by simp)
        · rw [MsgVal.obj.inj hs]
          rfl
  constructor
  · intro hne
    have hkeys : ¬objKeysLen msg = 0 := fun hk => hne (hempty.mp hk)
    simp only [checkOCSstatus, hm, hp, hn, hmsg]
    simp [hkeys]
  · intro hyes
    have hkeys : objKeysLen msg = 0 := hempty.mpr hyes
    simp only [checkOCSstatus, hm, hp, hn, hmsg]
    simp [hkeys]

/-- Witness for C7: the claim's envelopes with statuscode `404` — a
non-empty message yields `'Wrong path'`, an empty message yields the whole
envelope. -/
theorem checkOCSstatus_rejected_witness :
    checkOCSstatus ⟨some ⟨some ⟨"404", some (.str "Wrong path")⟩⟩⟩ none
      = .ok (some (.fromMessage (.str "Wrong path")))
    ∧ checkOCSstatus ⟨some ⟨some ⟨"404", some (.str "")⟩⟩⟩ none
      = .ok (some (.whole ⟨some ⟨some ⟨"404", some (.str "")⟩⟩⟩)) := by
  constructor
  · exact (checkOCSstatus_rejected ⟨some ⟨some ⟨"404", some (.str "Wrong path")⟩⟩⟩ none
      ⟨"404", some (.str "Wrong path")⟩ 404 (.str "Wrong path")
      rfl (by decide) (by decide) rfl).1 (by decide)
  · exact (checkOCSstatus_rejected ⟨some ⟨some ⟨"404", some (.str "")⟩⟩⟩ none
      ⟨"404", some (.str "")⟩ 404 (.str "")
      rfl (by decide) (by decide) rfl).2 (Or.inl rfl)

/-- C8: `_normalizePath` is idempotent, maps the empty path to `/`, and every
result starts with `/`. -/
theorem normalizePath_spec (p : String) :
    normalizePath (normalizePath p) = normalizePath p
    ∧ normalizePath "" = "/"
    ∧ (normalizePath p).data.head? = some '/' := by
  cases p with
  | mk data =>
    cases data with
    | nil => exact ⟨rfl, rfl, rfl⟩
    | cons c rest =>
      by_cases hc : c = '/'
      · subst hc
        refine ⟨?_, rfl, ?_⟩
        · simp [normalizePath]
        · simp [normalizePath]
      · refine ⟨?_, rfl, ?_⟩
        · simp [normalizePath, hc]
        · simp [normalizePath, hc]

theorem mk_data (s : String) : String.mk s.data = s := by
  cases s
  rfl

theorem replace2F_cons_ne (c : Char) (l : List Char) (hc : c ≠ '%') :
    replace2F (c :: l) = c :: replace2F l := by
  match l with
  | [] => rfl
  | [d] => rfl
  | d :: e :: r => simp [replace2F, hc]

theorem replace2F_esc (l : List Char) :
    replace2F ('%' :: '2' :: 'F' :: l) = '/' :: replace2F l := by
  simp [replace2F]

theorem uriUnescaped_of_unres (c : Char) (h : unreserved3986 c = true) :
    uriUnescaped c = true := by
  simp only [unreserved3986, Bool.or_eq_true, decide_eq_true_eq] at h
  rcases h with (((h | rfl) | rfl) | rfl) | rfl
  · simp [uriUnescaped, h]
  · decide
  · decide
  · decide
  · decide

theorem unres_ne_pct (c : Char) (h : unreserved3986 c = true) : c ≠ '%' := by
  rintro rfl
  exact absurd h (by decide)

theorem encL_cons_unres (c : Char) (l : List Char) (h : uriUnescaped c = true) :
    encodeURIComponentL (c :: l) = c :: encodeURIComponentL l := by
  simp [encodeURIComponentL, h]

theorem encL_cons_slash (l : List Char) :
    encodeURIComponentL ('/' :: l) = '%' :: '2' :: 'F' :: encodeURIComponentL l := rfl

theorem splitChar_ne_nil (sep : Char) (l : List Char) : splitChar sep l ≠ [] := by
  cases l with
  | nil => simp [splitChar]
  | cons c rest =>
    simp only [splitChar]
    cases h : splitChar sep rest with
    | nil => simp
    | cons t ts =>
      by_cases hc : c = sep
      · simp [hc]
      · simp [hc]

theorem join_split (sep : Char) (l : List Char) :
    joinSep sep (splitChar sep l) = l := by
  induction l with
  | nil => rfl
  | cons c rest ih =>
    cases h : splitChar sep rest with
    | nil => exact absurd h (splitChar_ne_nil sep rest)
    | cons t ts =>
      rw [h] at ih
      by_cases hc : c = sep
      · subst hc
        simp only [splitChar, h, if_pos rfl, joinSep]
        rw [ih]
        rfl
      · simp only [splitChar, h, if_neg hc]
        cases ts with
        | nil =>
          simp only [joinSep] at ih ⊢
          rw [ih]
        | cons s ss =>
          simp only [joinSep] at ih ⊢
          rw [List.cons_append, ih]

theorem splitChar_chars (sep : Char) (l : List Char) :
    ∀ s ∈ splitChar sep l, ∀ c ∈ s, c ∈ l ∧ c ≠ sep := by
  induction l with
  | nil =>
    intro s hs c hc
    simp [splitChar] at hs
    subst hs
    simp at hc
  | cons a rest ih =>
    intro s hs c hc
    revert hs
    cases h : splitChar sep rest with
    | nil => exact absurd h (splitChar_ne_nil sep rest)
    | cons t ts =>
      intro hs
      by_cases ha : a = sep
      · simp only [splitChar, h, if_pos ha] at hs
        rcases List.mem_cons.mp hs with hnil | hmem
        · subst hnil
          simp at hc
        · have hmem' : s ∈ splitChar sep rest := by
            rw [h]
            exact hmem
          have hres := ih s hmem' c hc
          exact ⟨List.mem_cons_of_mem a hres.1, hres.2⟩
      · simp only [splitChar, h, if_neg ha] at hs
        rcases List.mem_cons.mp hs with hhead | hmem
        · subst hhead
          rcases List.mem_cons.mp hc with hca | hct
          · subst hca
            exact ⟨List.mem_cons_self c rest, ha⟩
          · have ht : t ∈ splitChar sep rest := by
              rw [h]
              exact List.mem_cons_self t ts
            have hres := ih t ht c hct
            exact ⟨List.mem_cons_of_mem a hres.1, hres.2⟩
        · have hmem' : s ∈ splitChar sep rest := by
            rw [h]
            exact List.mem_cons_of_mem t hmem
          have hres := ih s hmem' c hc
          exact ⟨List.mem_cons_of_mem a hres.1, hres.2⟩

theorem pdec_no_pct (l : List Char) (h : ∀ c ∈ l, c ≠ '%') :
    ∀ fuel, l.length ≤ fuel → pdec fuel l = some l := by
  induction l with
  | nil =>
    intro fuel _
    cases fuel with
    | zero => rfl
    | succ f => rfl
  | cons c rest ih =>
    intro fuel hlen
    cases fuel with
    | zero => exact absurd hlen (by simp)
    | succ f =>
      have hc : c ≠ '%' := h c (List.mem_cons_self c rest)
      have hrest : ∀ x ∈ rest, x ≠ '%' := fun x hx => h x (List.mem_cons_of_mem c hx)
      have hlen' : rest.length ≤ f := by
        simp only [List.length_cons] at hlen
        omega
      simp only [pdec, if_neg hc]
      rw [ih hrest f hlen']

theorem decode_no_pct (s : List Char) (h : ∀ c ∈ s, c ≠ '%') :
    decodeURIComponent? s = some s :=
  pdec_no_pct s h s.length (Nat.le_refl _)

theorem mapM_decode_self (segs : List (List Char))
    (h : ∀ s ∈ segs, decodeURIComponent? s = some s) :
    segs.mapM decodeURIComponent? = some segs := by
  induction segs with
  | nil => rfl
  | cons s t ih =>
    rw [List.mapM_cons, h s (List.mem_cons_self s t),
      ih (fun x hx => h x (List.mem_cons_of_mem s hx))]
    rfl

theorem replace2F_encL (l : List Char)
    (h : ∀ c ∈ l, unreserved3986 c = true ∨ c = '/') :
    replace2F (encodeURIComponentL l) = l := by
  induction l with
  | nil => rfl
  | cons c rest ih =>
    have hrest : ∀ x ∈ rest, unreserved3986 x = true ∨ x = '/' :=
      fun x hx => h x (List.mem_cons_of_mem c hx)
    rcases h c (List.mem_cons_self c rest) with hu | hs
    · rw [encL_cons_unres c rest (uriUnescaped_of_unres c hu),
        replace2F_cons_ne c _ (unres_ne_pct c hu), ih hrest]
    · subst hs
      rw [encL_cons_slash rest, replace2F_esc, ih hrest]

theorem normalizePath_domain (p : String)
    (h : ∀ c ∈ p.data, unreserved3986 c = true ∨ c = '/') :
    ∀ c ∈ (normalizePath p).data, unreserved3986 c = true ∨ c = '/' := by
  cases p with
  | mk data =>
    cases data with
    | nil =>
      intro c hc
      simp [normalizePath] at hc
      exact Or.inr hc
    | cons a rest =>
      by_cases ha : a = '/'
      · intro c hc
        simp only [normalizePath, if_pos ha] at hc
        exact h c hc
      · intro c hc
        simp only [normalizePath, if_neg ha] at hc
        rcases List.mem_cons.mp hc with rfl | hc'
        · exact Or.inr rfl
        · exact h c hc'

theorem encodeUri_eq_norm (p : String)
    (h : ∀ c ∈ p.data, unreserved3986 c = true ∨ c = '/') :
    encodeUri p = normalizePath p := by
  unfold encodeUri
  rw [replace2F_encL (normalizePath p).data (normalizePath_domain p h), mk_data]

/-- C9: on a path made only of URI-unreserved characters and `/` separators,
`_encodeUri` keeps the `/` separators literal (it equals the normalized
path), and percent-decoding each `/`-separated segment of its output gives
back exactly the segments of the normalized path, whose rejoining is the
normalized path itself. -/
theorem encodeUri_roundtrip (p : String)
    (h : ∀ c ∈ p.data, unreserved3986 c = true ∨ c = '/') :
    encodeUri p = normalizePath p
    ∧ (splitChar '/' (encodeUri p).data).mapM decodeURIComponent?
        = some (splitChar '/' (normalizePath p).data)
    ∧ joinSep '/' (splitChar '/' (normalizePath p).data) = (normalizePath p).data := by
  have he := encodeUri_eq_norm p h
  refine ⟨he, ?_, join_split '/' (normalizePath p).data⟩
  rw [he]
  apply mapM_decode_self
  intro s hs
  apply decode_no_pct
  intro c hc
  have hmem := splitChar_chars '/' (normalizePath p).data s hs c hc
  rcases normalizePath_domain p h c hmem.1 with hu | hsl
  · exact unres_ne_pct c hu
  · exact absurd hsl hmem.2

/-- Witness for C9: a concrete unreserved-and-slash path. -/
theorem encodeUri_roundtrip_witness :
    encodeUri "docs/sub-dir/file.txt" = normalizePath "docs/sub-dir/file.txt"
    ∧ (splitChar '/' (encodeUri "docs/sub-dir/file.txt").data).mapM decodeURIComponent?
        = some (splitChar '/' (normalizePath "docs/sub-dir/file.txt").data)
    ∧ joinSep '/' (splitChar '/' (normalizePath "docs/sub-dir/file.txt").data)
        = (normalizePath "docs/sub-dir/file.txt").data :=
  encodeUri_roundtrip "docs/sub-dir/file.txt" (by decide)

end OCClient
